import Mathlib

/-!
Verification of the cfile library (PaulWay/cfile) against its
natural-language specification.

The development shallowly embeds the parts of the C source that the
claims speak about:

* `CBuf` — the generic decode buffer of cfile_buffer.c (buf_fgets,
  buf_fread).  The refill callback is modelled as the queue of byte
  chunks that successive calls will deliver; an exhausted queue models a
  callback that returns 0 (end of stream) forever.
* `BzAttr` — the extended-attribute size cache of the bzip2 backend
  (bzip_attribute_size / bzip2_size in cfile_bzip2.c, and the older
  variant of bzip_attribute_size in cfile.c).  The getxattr / stat
  system calls are modelled by an environment record holding their
  results.
* `Layout` — an LP64 (pointers, size_t, off_t = 8 bytes; int = 4 bytes;
  bool = 1 byte) model of C struct layout, used to evaluate the
  struct_size slots of the backend operation tables.
* `RW` — the block read/write entry points of the gzip, bzip2 and plain
  backends, with the codec library calls (gzread, BZ2_bzwrite, fread)
  modelled by their documented return-value behaviour on success.
* `Dispatch` — the entry points of cfile.c, each of which checks for a
  null handle before doing anything; the work done on a non-null handle
  is abstracted as a function argument so that the theorems can state
  that it is never consulted when the handle is null.
* `Mono` — the bzip2 read path of the monolithic cfile.c (bz_fgetc,
  cfgets, cfeof) and the growable line reader cfgetline built on it.
  BZ2_bzread is modelled as delivering up to 1024 bytes at a time from
  a stream of decoded bytes.
* `Xz` — the backward footer/index walk of xz_size in cfile_xz.c.  An
  xz file is modelled as a list of streams, each consisting of a
  12-byte header, a compressed-blocks region, an index region, a
  12-byte footer and a trailing run of 4-byte zero padding words.  The
  liblzma decode calls are modelled by their documented behaviour: a
  footer decodes successfully exactly at a footer position and yields
  the size of the index that precedes it, an index decoder consumes the
  index bytes in chunks and reports stream-end when the structure is
  complete, and index concatenation adds uncompressed sizes.  The
  compressed payload of a stream enters the model only through its
  length, so the walk by construction never decodes payload bytes.
-/

namespace CBuf

/-- State of the generic decode buffer (struct cfile_buffer_struct in
cfile_buffer.h).  `content` is the valid part of the buffer, so
`buflen = content.length`; `chunks` is the queue of byte chunks that
successive refill callback calls will deliver, with an exhausted queue
modelling a refill that returns 0 from now on. -/
structure BufState where
  bufsize : Nat
  content : List Char
  bufpos : Nat
  chunks : List (List Char)
deriving DecidableEq, Repr

/-- The READ_BUFFER macro of cfile_buffer.c: reset bufpos to 0 and refill
the buffer from the callback.  A refill that returns 0 leaves an empty
buffer (buflen = 0). -/
def readBuffer (s : BufState) : BufState :=
  match s.chunks with
  | [] => { s with content := [], bufpos := 0, chunks := [] }
  | c :: rest => { s with content := c, bufpos := 0, chunks := rest }

/-- The while (--len) loop of buf_fgets.  The first argument is the value
of len at the top of the loop; patterns 0 and 1 are the cases in which
the decremented counter is zero and the loop exits (the 0 case is
unreachable from buf_fgets, which rejects len = 0 up front).  `acc` is
the text written through ptr so far; the NUL terminator that the C code
stores is implicit in returning exactly `acc`. -/
def buf_fgets_loop : Nat → List Char → BufState → Option (List Char) × BufState
  | 0, acc, s => (some acc, s)
  | 1, acc, s => (some acc, s)
  | len+2, acc, s =>
    if s.content.length == s.bufpos then
      let s1 := readBuffer s
      if s1.content.length == 0 then
        (if acc.isEmpty then none else some acc, s1)
      else
        let ch := s1.content.getD 0 'A'
        let s2 := { s1 with bufpos := 1 }
        if ch == '\n' then (some (acc ++ [ch]), s2)
        else buf_fgets_loop (len+1) (acc ++ [ch]) s2
    else
      let ch := s.content.getD s.bufpos 'A'
      let s2 := { s with bufpos := s.bufpos + 1 }
      if ch == '\n' then (some (acc ++ [ch]), s2)
      else buf_fgets_loop (len+1) (acc ++ [ch]) s2

/-- buf_fgets of cfile_buffer.c.  len has C type size_t, so the guard
len <= 0 means len = 0. -/
def buf_fgets (s : BufState) (len : Nat) : Option (List Char) × BufState :=
  if len = 0 then (none, s) else buf_fgets_loop len [] s

/-- The for (;;) loop of buf_fread, with one unit of fuel consumed per
pass through the loop head (a refill pass and the copy that follows it
in the same C iteration consume two units; this only affects how much
fuel a terminating run needs, not what it returns).  `total` is the
running value of the C variable total_copied — which the C code never
initialises, so the caller passes its arbitrary starting value —
`len` the bytes still wanted, and `copied` the distance ptr has moved
from target (used by the ptr == target tests).  A `none` result means
the fuel ran out before the loop exited. -/
def buf_fread_loop : Nat → Nat → Nat → Nat → BufState → Option (Nat × BufState)
  | 0, _, _, _, _ => none
  | fuel+1, total, len, copied, s =>
    if s.bufpos == s.content.length then
      let s1 := readBuffer s
      if s1.content.length == 0 then
        (if copied == 0 then some (0, s1) else some (total, s1))
      else buf_fread_loop fuel total len copied s1
    else
      let avail := s.content.length - s.bufpos
      let chunk := min len avail
      buf_fread_loop fuel (total + chunk) (len - chunk) (copied + chunk)
        { s with bufpos := s.bufpos + chunk }

/-- buf_fread of cfile_buffer.c.  `garbage` is the indeterminate initial
value of the uninitialised local total_copied. -/
def buf_fread (garbage : Nat) (s : BufState) (len : Nat) (fuel : Nat) :
    Option (Nat × BufState) :=
  if len = 0 then some (0, s) else buf_fread_loop fuel garbage len 0 s

/-- A buffer state is well formed when the read cursor is inside the
valid region and no queued refill chunk is empty (an empty chunk would
mean the callback returned 0 and then delivered data again, which the
buffer treats as end of stream). -/
def wf (s : BufState) : Prop :=
  s.bufpos ≤ s.content.length ∧ ∀ c ∈ s.chunks, c ≠ []

/-- The bytes still deliverable from a buffer state: the unread tail of
the buffer followed by everything the refill callback will still
deliver. -/
def avail (s : BufState) : List Char :=
  s.content.drop s.bufpos ++ s.chunks.flatten

/-- Reference line-read over the flat list of deliverable bytes; used to
relate buf_fgets runs on states that deliver the same bytes through
different chunkings. -/
def fgetsSpec : Nat → List Char → List Char → Option (List Char) × List Char
  | 0, acc, av => (some acc, av)
  | 1, acc, av => (some acc, av)
  | len+2, acc, av =>
    match av with
    | [] => (if acc.isEmpty then none else some acc, [])
    | ch :: rest =>
      if ch == '\n' then (some (acc ++ [ch]), rest)
      else fgetsSpec (len+1) (acc ++ [ch]) rest

/-- The byte sequence of the specification example: "ab\ncd". -/
def abncd : List Char := ['a', 'b', '\n', 'c', 'd']

end CBuf

namespace BzAttr

/-- Results of the system calls made by bzip_attribute_size: the probing
getxattr call (value size query), the fetching getxattr call, the
record fields it fills in, and the stat of the compressed file (the
mtime when stat succeeds). -/
structure Env where
  probeSize : Int
  fetchResult : Int
  file_size : Int
  time_stamp : Int
  statResult : Option Int
deriving DecidableEq, Repr

/-- sizeof(struct size_xattr_struct) on LP64: two 8-byte signed fields. -/
def sizeofXattr : Int := 16

/-- Conversion of a 64-bit off_t value to the 32-bit int return type of
bzip_attribute_size (two's-complement wrap-around into
[-2^31, 2^31)), as performed by the return statement of a function
declared `static int` that returns an off_t expression. -/
def intWrap (x : Int) : Int := (x + 2^31) % 2^32 - 2^31

/-- bzip_attribute_size of cfile_bzip2.c (the modular bzip2 backend):
returns the cached uncompressed size, or 0 on any failure.  The
freshness test accepts the record whenever mtime <= time_stamp.  The
function is declared `static int`, so the off_t-typed ternary result
is truncated to 32-bit int on return. -/
def bzip_attribute_size (e : Env) : Int :=
  if e.probeSize ≤ 0 then 0
  else if e.probeSize ≠ sizeofXattr then 0
  else if e.fetchResult ≤ 0 then 0
  else
    match e.statResult with
    | some mtime => intWrap (if mtime ≤ e.time_stamp then e.file_size else 0)
    | none => 0

/-- bzip_attribute_size of the monolithic cfile.c: identical (including
the truncating int return) except that the freshness test accepts the
record only when mtime < time_stamp (equal counts as stale). -/
def bzip_attribute_size_mono (e : Env) : Int :=
  if e.probeSize ≤ 0 then 0
  else if e.probeSize ≠ sizeofXattr then 0
  else if e.fetchResult ≤ 0 then 0
  else
    match e.statResult with
    | some mtime => intWrap (if mtime < e.time_stamp then e.file_size else 0)
    | none => 0

/-- bzip2_size of cfile_bzip2.c: use the attribute cache if it yields a
non-zero size, otherwise recompute through the external bzcat | wc -c
pipeline (whose result is the `calc` argument) and best-effort store
the result. -/
def bzip2_size (e : Env) (calcResult : Int) : Int :=
  if bzip_attribute_size e = 0 then calcResult else bzip_attribute_size e

end BzAttr

namespace Layout

/-- Round `off` up to a multiple of the alignment `a`. -/
def alignUp (off a : Nat) : Nat := ((off + a - 1) / a) * a

/-- Size of a C struct from its field (size, alignment) list, by the
standard layout rule: place each field at the next suitably aligned
offset, then pad the total to the largest field alignment. -/
def sizeofStruct (fields : List (Nat × Nat)) : Nat :=
  let e := fields.foldl
    (fun (acc : Nat × Nat) (f : Nat × Nat) =>
      (alignUp acc.1 f.2 + f.1, max acc.2 f.2)) (0, 1)
  alignUp e.1 e.2

/-- An 8-byte pointer field on LP64. -/
def ptrField : Nat × Nat := (8, 8)

/-- Fields of struct cfile_vtable (cfile_private.h): size_t struct_size,
eight function pointers, const char *implementation_name. -/
def cfile_vtable_fields : List (Nat × Nat) :=
  (8, 8) :: List.replicate 8 ptrField ++ [ptrField]

/-- Fields of struct cfile_struct (cfile_private.h): the vtable pointer
and the filename pointer. -/
def cfile_fields : List (Nat × Nat) := [ptrField, ptrField]

def sizeof_cfile_vtable : Nat := sizeofStruct cfile_vtable_fields

def sizeof_cfile : Nat := sizeofStruct cfile_fields

/-- Fields of struct cfile_gzip (cfile_gzip.c): the embedded cfile base
and the gzFile pointer. -/
def cfile_gzip_fields : List (Nat × Nat) := [(sizeof_cfile, 8), ptrField]

/-- Fields of struct cfile_bzip2 (cfile_bzip2.c): base, BZFILE pointer,
read buffer pointer, int buflen, int bufpos. -/
def cfile_bzip2_fields : List (Nat × Nat) :=
  [(sizeof_cfile, 8), ptrField, ptrField, (4, 4), (4, 4)]

/-- Fields of struct cfile_lzo (cfile_lzo.c): base, FILE pointer, LZO
work-memory pointer, bool writing, buffer pointer. -/
def cfile_lzo_fields : List (Nat × Nat) :=
  [(sizeof_cfile, 8), ptrField, ptrField, (1, 1), ptrField]

/-- Fields of struct cfile_normal (cfile_normal.c): the stray leading
cfile pointer, the embedded cfile base, the FILE pointer. -/
def cfile_normal_fields : List (Nat × Nat) :=
  [ptrField, (sizeof_cfile, 8), ptrField]

/-- struct_size slot of gzip_cfile_table as written in cfile_gzip.c:
sizeof(gzip_cfile_table), the size of the vtable itself. -/
def gzip_table_struct_size : Nat := sizeof_cfile_vtable

/-- struct_size slot of cfile_lzo_vtable as written in cfile_lzo.c:
sizeof(cfile), the size of the bare base structure. -/
def lzo_table_struct_size : Nat := sizeof_cfile

/-- struct_size slot of bzip2_cfile_table as written in cfile_bzip2.c:
sizeof(cfile_bzip2). -/
def bzip2_table_struct_size : Nat := sizeofStruct cfile_bzip2_fields

/-- struct_size slot of normal_cfile_table as written in cfile_normal.c:
sizeof(cfile_normal). -/
def normal_table_struct_size : Nat := sizeofStruct cfile_normal_fields

end Layout

namespace RW

/-- gzip_read of cfile_gzip.c: return gzread(gp, ptr, size * num), and
gzread on success returns the number of bytes read, up to the request.
`avail` is the number of decoded bytes the stream can still deliver. -/
def gzip_read (avail : Nat) (size num : Nat) : Nat :=
  min (size * num) avail

/-- bzip2_write of cfile_bzip2.c: return BZ2_bzwrite(bp, ptr,
size * num), which on success returns the number of bytes written. -/
def bzip2_write (size num : Nat) : Nat := size * num

/-- bzip2_read of cfile_bzip2.c: return BZ2_bzread(bp, ptr, size * num),
which on success returns the number of bytes read, up to the request. -/
def bzip2_read (avail : Nat) (size num : Nat) : Nat :=
  min (size * num) avail

/-- normal_read of cfile_normal.c: return fread(ptr, size, num, fp),
which returns the number of complete items read. -/
def normal_read (avail : Nat) (size num : Nat) : Nat :=
  min num (avail / size)

/-- normal_write of cfile_normal.c: return fwrite(ptr, size, num, fp),
which on success returns the number of complete items written. -/
def normal_write (_size num : Nat) : Nat := num

end RW

namespace Dispatch

/-- cfsize of cfile.c: if (!fp) return 0; otherwise do the per-filetype
size work, abstracted here as `body`. -/
def cfsize {H : Type} (body : H → Int) : Option H → Int
  | none => 0
  | some h => body h

/-- cfeof of cfile.c: if (!fp) return 0. -/
def cfeof {H : Type} (body : H → Int) : Option H → Int
  | none => 0
  | some h => body h

/-- cfgets of cfile.c: if (!fp) return 0 (the null pointer). -/
def cfgets {H : Type} (body : H → Option (List Char)) : Option H → Option (List Char)
  | none => none
  | some h => body h

/-- cvfprintf of cfile.c: if (!fp) return 0. -/
def cvfprintf {H : Type} (body : H → Int) : Option H → Int
  | none => 0
  | some h => body h

/-- cfprintf of cfile.c merely compiles the va_list and delegates to
cvfprintf, which performs the null check. -/
def cfprintf {H : Type} (body : H → Int) (fp : Option H) : Int :=
  cvfprintf body fp

/-- cfread of cfile.c: if (!fp) return 0. -/
def cfread {H : Type} (body : H → Int) : Option H → Int
  | none => 0
  | some h => body h

/-- cfwrite of cfile.c: if (!fp) return 0. -/
def cfwrite {H : Type} (body : H → Int) : Option H → Int
  | none => 0
  | some h => body h

/-- cfflush of cfile.c: if (!fp) return 0. -/
def cfflush {H : Type} (body : H → Int) : Option H → Int
  | none => 0
  | some h => body h

/-- cfclose of cfile.c: if (!fp) return 0; otherwise talloc_free runs the
destructor and returns its status, abstracted as `body`. -/
def cfclose {H : Type} (body : H → Int) : Option H → Int
  | none => 0
  | some h => body h

end Dispatch

namespace Mono

/-- A monolithic cfile.c handle opened on a bzip2 file, restricted to the
fields its read path touches.  `stream` holds the decoded bytes that
successive BZ2_bzread calls will deliver; `allocated` records whether
the fgetc buffer has been talloc'd; `content` is the valid part of that
buffer (buflen = content.length) and `bufpos` the cursor. -/
structure BzHandle where
  stream : List Char
  allocated : Bool
  content : List Char
  bufpos : Nat
deriving DecidableEq, Repr

/-- CFILE_BUFFER_SIZE of cfile.c. -/
def bufferSize : Nat := 1024

/-- bz_fgetc of cfile.c: allocate the buffer on first use, refill it by
BZ2_bzread when exhausted (a read of 0 bytes is EOF), and hand out the
next character. -/
def bz_fgetc (s : BzHandle) : Option Char × BzHandle :=
  let s := if s.allocated then s else { s with allocated := true }
  if s.content.length == s.bufpos then
    let chunk := s.stream.take bufferSize
    let s1 := { s with content := chunk, bufpos := 0,
                       stream := s.stream.drop bufferSize }
    if chunk.length == 0 then (none, s1)
    else (some (chunk.getD 0 'A'), { s1 with bufpos := 1 })
  else
    (some (s.content.getD s.bufpos 'A'), { s with bufpos := s.bufpos + 1 })

/-- The while (--len) loop of the BZIPPED branch of cfgets in cfile.c
(the glibc-style loop over bz_fgetc).  As in CBuf.buf_fgets_loop, the
argument is len at the top of the loop and the 0 pattern is
unreachable from cfgets. -/
def cfgets_loop : Nat → List Char → BzHandle → Option (List Char) × BzHandle
  | 0, acc, s => (some acc, s)
  | 1, acc, s => (some acc, s)
  | len+2, acc, s =>
    match bz_fgetc s with
    | (none, s1) => (if acc.isEmpty then none else some acc, s1)
    | (some ch, s1) =>
      if ch == '\n' then (some (acc ++ [ch]), s1)
      else cfgets_loop (len+1) (acc ++ [ch]) s1

/-- cfgets of cfile.c on a BZIPPED handle. -/
def cfgets (s : BzHandle) (len : Nat) : Option (List Char) × BzHandle :=
  if len = 0 then (none, s) else cfgets_loop len [] s

/-- cfeof of cfile.c on a BZIPPED handle whose bzlib session reports no
error (errnum = 0, i.e. BZ_OK): end of file is reported exactly when
the read buffer has been allocated and its length and position are
both zero, which happens exactly after a BZ2_bzread returned 0. -/
def cfeof (s : BzHandle) : Bool :=
  s.allocated && s.content.length == 0 && s.bufpos == 0

/-- The isafullline macro of cfile.c: the line is complete when its last
character is a newline or carriage return.  (With len = 0 the C macro
reads line[-1]; that path is undefined behaviour and is not exercised
by the theorems below.) -/
def isafullline (line : List Char) (len : Nat) : Bool :=
  line.getD (len - 1) 'A' == '\n' || line.getD (len - 1) 'A' == '\r'

/-- The while loop of cfgetline in cfile.c.  Carries the handle, the line
contents (whose length is the C variable len, the strlen of the line),
and maxline.  One unit of fuel per iteration; `none` means the fuel ran
out.  The result's first component is NULL (`none`) exactly on the
return NULL path taken when a continuation cfgets delivers nothing and
len is still 0. -/
def cfgetline_loop :
    Nat → BzHandle → List Char → Nat → Int →
    Option (Option (List Char) × Int × BzHandle)
  | 0, _, _, _, _ => none
  | fuel+1, s, line, len, maxline =>
    if ¬ cfeof s ∧ ¬ isafullline line len then
      let extend := len / 2
      let maxline1 := maxline + extend
      match cfgets s extend with
      | (none, s1) =>
        if len = 0 then some (none, maxline1, s1)
        else some (some line, maxline1, s1)
      | (some tail, s1) =>
        cfgetline_loop fuel s1 (line.take len ++ tail) (len + tail.length) maxline1
    else some (some line, maxline, s)

/-- cfgetline of cfile.c on a BZIPPED handle.  `lineInit` is the caller's
buffer (none models a NULL line pointer, which cfgetline allocates
itself); `maxlineInit` the caller's (possibly negative, possibly zero)
buffer length.  Returns the line (none for the NULL return), the final
value of *maxline and the final handle state; the outer `none` means
the loop fuel ran out. -/
def cfgetline (s : BzHandle) (_lineInit : Option (List Char)) (maxlineInit : Int)
    (fuel : Nat) : Option (Option (List Char) × Int × BzHandle) :=
  let shrink := maxlineInit < 0
  let m1 := if shrink then -maxlineInit else maxlineInit
  let m2 := if m1 = 0 then 80 else m1
  match cfgets s m2.toNat with
  | (none, s1) => some (none, m2, s1)
  | (some l, s1) =>
    match cfgetline_loop fuel s1 l l.length m2 with
    | none => none
    | some (none, m3, s2) => some (none, m3, s2)
    | some (some line, m3, s2) =>
      if shrink then some (some line, (line.length : Int) + 1, s2)
      else some (some line, m3, s2)

end Mono

namespace Xz

/-- One stream of an xz file, as seen by the size-recovery walk: a
12-byte (LZMA_STREAM_HEADER_SIZE) header, `blocksSize` bytes of
compressed block payload, `indexSize` bytes of index recording a total
uncompressed size of `uncompressed`, a 12-byte footer whose
backward_size field is `indexSize`, and `padWords` 4-byte words of
zero stream padding after the footer. -/
structure XZStream where
  blocksSize : Nat
  indexSize : Nat
  uncompressed : Nat
  padWords : Nat
deriving DecidableEq, Repr, Inhabited

/-- Bytes occupied by one stream, padding included. -/
def streamLen (s : XZStream) : Int :=
  12 + s.blocksSize + s.indexSize + 12 + 4 * s.padWords

/-- Total size of the file, as reported by fseek to SEEK_END / ftell. -/
def fileLen (f : List XZStream) : Int := (f.map streamLen).sum

/-- Offset of the header of stream `k`. -/
def headerPos (f : List XZStream) (k : Nat) : Int := fileLen (f.take k)

/-- Offset of the footer of stream `k`. -/
def footerPos (f : List XZStream) (k : Nat) : Int :=
  headerPos f k + 12 + (f.getD k default).blocksSize + (f.getD k default).indexSize

/-- Whether the 4-byte word at `pos` lies inside the stream padding of
some stream — these are exactly the all-zero words the footer search
skips over (a footer always ends in the nonzero magic bytes). -/
def isPaddingWordAt (f : List XZStream) (pos : Int) : Bool :=
  (List.range f.length).any fun k =>
    decide (footerPos f k + 12 ≤ pos ∧
            pos + 4 ≤ footerPos f k + 12 + 4 * (f.getD k default).padWords)

/-- lzma_stream_footer_decode on the 12 bytes at `pos`: succeeds exactly
at a footer position, identifying the stream (and hence the
backward_size field, the size of the index before the footer). -/
def footerDecodeAt (f : List XZStream) (pos : Int) : Option Nat :=
  (List.range f.length).find? fun k => decide (footerPos f k = pos)

/-- lzma_stream_header_decode on the 12 bytes at `pos`: succeeds exactly
at a header position. -/
def headerDecodeAt (f : List XZStream) (pos : Int) : Bool :=
  (List.range f.length).any fun k => decide (headerPos f k = pos)

/-- Outcome of the whole size computation: `ub` marks an execution that
operates on the freed scratch buffer or the closed file handle, or
passes a null index to lzma_index_uncompressed_size (all undefined
behaviour in the C source). -/
inductive XZOut where
  | ub
  | size (n : Nat)
deriving DecidableEq, Repr

/-- Outcome of the footer-search loop. -/
inductive SkipRes where
  | ub
  | found (pos : Int)
deriving DecidableEq, Repr

/-- Outcome of the index-decode loop: `brk` is the short-read path that
exits the enclosing walk. -/
inductive IdxRes where
  | ub
  | brk
  | done (pos : Int)
deriving DecidableEq, Repr

/-- The footer-search loop of xz_size: read the 12 bytes at pos and step
back one 4-byte word while the last word of the window is padding.
fread on a closed handle is undefined behaviour.  `none` means the
fuel ran out. -/
def skipPadding (f : List XZStream) (closed : Bool) :
    Nat → Int → Option SkipRes
  | 0, _ => none
  | fuel+1, pos =>
    if closed then some .ub
    else if isPaddingWordAt f (pos + 8) then skipPadding f closed fuel (pos - 4)
    else some (.found pos)

/-- The index-decode loop of xz_size: feed the index to the decoder in
chunks of at most max_data_read = 32 bytes, advancing pos; a short
fread exits the enclosing walk (brk); the decoder reports
LZMA_STREAM_END once the `rem` remaining index bytes are consumed. -/
def indexLoop (f : List XZStream) (closed : Bool) :
    Nat → Nat → Int → Option IdxRes
  | 0, _, _ => none
  | fuel+1, rem, pos =>
    if closed then some .ub
    else
      let chunk := min 32 rem
      if fileLen f < pos + chunk then some .brk
      else if rem - chunk = 0 then some (.done (pos + chunk))
      else indexLoop f closed fuel (rem - chunk) (pos + chunk)

/-- Exit of the walk: fclose, then
lzma_index_uncompressed_size(combined_index); with no combined index
built that call dereferences NULL. -/
def xzFinish (combined : Option Nat) : Option XZOut :=
  match combined with
  | none => some .ub
  | some u => some (.size u)

/-- The whole do … while (pos > 0) walk of xz_size, one stream per
iteration: step back a header-size, search for the footer through the
padding, decode the footer, sanity-check and decode the index, step
back over the index and blocks, decode the header, and concatenate the
fresh index onto the running combined index (lzma_index_cat adds
uncompressed sizes).  Every break inside the C loop goes to the common
exit, `xzFinish`. -/
def xzWalk (f : List XZStream) (closed : Bool) :
    Nat → Int → Option Nat → Option XZOut
  | 0, _, _ => none
  | fuel+1, pos0, combined =>
    let pos := pos0 - 12
    match skipPadding f closed fuel pos with
    | none => none
    | some .ub => some .ub
    | some (.found fpos) =>
      match footerDecodeAt f fpos with
      | none => xzFinish combined
      | some k =>
        let idxSize := (f.getD k default).indexSize
        if fpos < (idxSize : Int) + 12 then xzFinish combined
        else
          match indexLoop f closed fuel idxSize (fpos - idxSize) with
          | none => none
          | some .ub => some .ub
          | some .brk => xzFinish combined
          | some (.done pos2) =>
            let pos3 := pos2 - ((idxSize : Int) + 12)
            let total := (f.getD k default).blocksSize
            if pos3 < (total : Int) then xzFinish combined
            else
              let pos4 := pos3 - total
              if fileLen f < pos4 + 12 then xzFinish combined
              else if headerDecodeAt f pos4 then
                let u := (f.getD k default).uncompressed
                let combined2 :=
                  match combined with
                  | none => some u
                  | some c => some (u + c)
                if pos4 > 0 then xzWalk f closed fuel pos4 combined2
                else xzFinish combined2
              else xzFinish combined

/-- xz_size of cfile_xz.c.  When the file is smaller than two stream
headers the source frees the scratch buffer and closes the file handle
but, lacking a return statement, falls through into the walk, which
then operates on the closed handle; this is modelled by entering the
walk with closed = true. -/
def xz_size (f : List XZStream) (fuel : Nat) : Option XZOut :=
  let pos : Int := fileLen f
  if pos < 2 * 12 then xzWalk f true fuel pos none
  else xzWalk f false fuel pos none

end Xz

/-! ## Theorems -/

/-- C9: every dispatch entry point of cfile.c returns its default
immediately on a null handle, whatever the per-filetype work would have
been, and cfclose on a null handle returns the success status 0. -/
theorem null_handle_guards {H : Type} (b1 b2 b4 b5 b6 b7 b8 : H → Int)
    (b3 : H → Option (List Char)) :
    Dispatch.cfsize b1 none = 0 ∧ Dispatch.cfeof b2 none = 0 ∧
    Dispatch.cfgets b3 none = none ∧ Dispatch.cvfprintf b4 none = 0 ∧
    Dispatch.cfprintf b4 none = 0 ∧ Dispatch.cfread b5 none = 0 ∧
    Dispatch.cfwrite b6 none = 0 ∧ Dispatch.cfflush b7 none = 0 ∧
    Dispatch.cfclose b8 none = 0 :=
  ⟨rfl, rfl, rfl, rfl, rfl, rfl, rfl, rfl, rfl⟩

/-- C10: the struct_size slots on LP64.  The gzip table carries
sizeof(gzip_cfile_table) = 80, not sizeof(cfile_gzip) = 24; the lzo
table carries sizeof(cfile) = 16, strictly less than
sizeof(cfile_lzo) = 48, so the allocator reserves too little for the
fields cfile_lzo_open writes; the bzip2 and normal tables carry their
private structure sizes. -/
theorem vtable_struct_size_slots :
    Layout.gzip_table_struct_size = 80 ∧
    Layout.sizeofStruct Layout.cfile_gzip_fields = 24 ∧
    Layout.gzip_table_struct_size ≠ Layout.sizeofStruct Layout.cfile_gzip_fields ∧
    Layout.lzo_table_struct_size = 16 ∧
    Layout.sizeofStruct Layout.cfile_lzo_fields = 48 ∧
    Layout.lzo_table_struct_size < Layout.sizeofStruct Layout.cfile_lzo_fields ∧
    Layout.bzip2_table_struct_size = 40 ∧
    Layout.sizeofStruct Layout.cfile_bzip2_fields = 40 ∧
    Layout.normal_table_struct_size = 32 ∧
    Layout.sizeof_cfile_vtable = 80 := by decide

/-- C5: on a successful transfer of 2 items of 4 bytes over 8 available
bytes, the gzip and bzip2 backends return the byte count 8 while the
plain backend returns the item count 2 — the read/write slots do not
agree on returning whole-item counts. -/
theorem block_read_write_byte_counts :
    RW.gzip_read 8 4 2 = 8 ∧ RW.bzip2_write 4 2 = 8 ∧ RW.bzip2_read 8 4 2 = 8 ∧
    RW.normal_read 8 4 2 = 2 ∧ RW.normal_write 4 2 = 2 ∧ (8 : Nat) ≠ 2 := by
  decide

/-- C1 counterexample: with a well-formed cached record whose recording
timestamp exactly equals the file's modification time (both 100), the
modular backend's bzip_attribute_size returns the cached size 42
rather than rejecting the record, and bzip2_size therefore returns the
cached 42 instead of the freshly recomputed 99. -/
theorem bzip2_size_equal_timestamp_counterexample :
    BzAttr.bzip_attribute_size ⟨16, 16, 42, 100, some 100⟩ = 42 ∧
    BzAttr.bzip2_size ⟨16, 16, 42, 100, some 100⟩ 99 = 42 := by
  decide

/-- C1 (amended): with a readable, size-correct attribute record and a
successful stat, the modular backend keeps the cached size — reduced to
32-bit int by bzip_attribute_size's return type — exactly when that
wrapped value is non-zero and mtime <= time_stamp (so an equal timestamp
counts as fresh), recomputing otherwise; the monolithic cfile.c variant
instead accepts only mtime < time_stamp, treating an equal timestamp as
stale.  In particular a fresh cached size of 2^32 wraps to 0 and forces
recomputation. -/
theorem bzip2_attribute_cache_tiebreak (e : BzAttr.Env) (calcR : Int)
    (mtime : Int) (hprobe : e.probeSize = BzAttr.sizeofXattr)
    (hfetch : 0 < e.fetchResult) (hstat : e.statResult = some mtime) :
    (BzAttr.bzip2_size e calcR =
      (if BzAttr.intWrap e.file_size ≠ 0 ∧ mtime ≤ e.time_stamp
       then BzAttr.intWrap e.file_size else calcR) ∧
     BzAttr.bzip_attribute_size_mono e =
      (if mtime < e.time_stamp then BzAttr.intWrap e.file_size else 0)) ∧
    BzAttr.bzip2_size ⟨16, 16, 2 ^ 32, 100, some 99⟩ 7 = 7 := by
  have h3 : ¬ (e.fetchResult ≤ 0) := not_le.mpr hfetch
  have hw0 : BzAttr.intWrap 0 = 0 := by decide
  refine ⟨⟨?_, ?_⟩, by decide⟩
  · simp only [BzAttr.bzip2_size, BzAttr.bzip_attribute_size, BzAttr.sizeofXattr,
      hprobe, hstat, h3, if_false]
    norm_num
    by_cases hle : mtime ≤ e.time_stamp
    · simp only [hle, if_true, and_true]
      split_ifs <;> rfl
    · simp only [hle, if_false, and_false, hw0, if_true]
  · simp only [BzAttr.bzip_attribute_size_mono, BzAttr.sizeofXattr,
      hprobe, hstat, h3, if_false]
    norm_num
    by_cases hlt : mtime < e.time_stamp
    · simp only [hlt, if_true]
    · simp only [hlt, if_false, hw0]

/-- C1 witness: the amended tie-break theorem applied at a concrete
environment with mtime 99 strictly older than the recorded timestamp
100. -/
theorem bzip2_attribute_cache_tiebreak_witness :
    ((BzAttr.bzip2_size ⟨16, 16, 42, 100, some 99⟩ 7 =
       (if BzAttr.intWrap 42 ≠ 0 ∧ (99 : Int) ≤ 100
        then BzAttr.intWrap 42 else 7)) ∧
     (BzAttr.bzip_attribute_size_mono ⟨16, 16, 42, 100, some 99⟩ =
       (if (99 : Int) < 100 then BzAttr.intWrap 42 else 0))) ∧
    BzAttr.bzip2_size ⟨16, 16, 2 ^ 32, 100, some 99⟩ 7 = 7 :=
  bzip2_attribute_cache_tiebreak ⟨16, 16, 42, 100, some 99⟩ 7 99 (by decide)
    (by decide) rfl

/-- C3: buf_fread's total_copied is never initialised, so a short read of
2 bytes against a 3-byte request returns whatever value the local
variable started with plus 2 — only by accident the copied count. -/
theorem buf_fread_total_uninitialised (g : Nat) :
    CBuf.buf_fread g ⟨4096, [], 0, [['a', 'b']]⟩ 3 5 =
      some (g + 2, ⟨4096, [], 0, []⟩) := by
  rfl

/-- Once a request has been fully served with bytes still unread in the
buffer, every further pass of buf_fread's loop copies a zero-length
chunk and changes nothing, so no amount of fuel makes it exit. -/
theorem buf_fread_loop_spin (m : Nat) :
    ∀ t c : Nat,
      CBuf.buf_fread_loop m t 0 c ⟨4096, ['a', 'b'], 1, []⟩ = none := by
  induction m with
  | zero => intro t c; rfl
  | succ m ih =>
    intro t c
    simp only [CBuf.buf_fread_loop, CBuf.readBuffer]
    norm_num
    exact ih t c

/-- C4: a 1-byte request against a refill that delivers "ab" leaves an
undelivered byte in the buffer after the request is satisfied, and
buf_fread then never terminates, whatever fuel it is given. -/
theorem buf_fread_request_satisfied_spins (fuel : Nat) :
    CBuf.buf_fread 0 ⟨4096, [], 0, [['a', 'b']]⟩ 1 fuel = none := by
  match fuel with
  | 0 => rfl
  | 1 => rfl
  | (m+2) =>
    show CBuf.buf_fread_loop (m+2) 0 1 0 ⟨4096, [], 0, [['a', 'b']]⟩ = none
    simp only [CBuf.buf_fread_loop, CBuf.readBuffer]
    norm_num
    exact buf_fread_loop_spin m 1 1

/-- A line read at end of stream returns the text read so far (or null
when there is none), for any remaining capacity. -/
theorem fgetsSpec_nil (n : Nat) (acc : List Char) (h : acc ≠ []) :
    CBuf.fgetsSpec n acc [] = (some acc, []) := by
  match n with
  | 0 => rfl
  | 1 => rfl
  | (m+2) => simp [CBuf.fgetsSpec, h]

/-- Reading a non-newline character appends it and continues. -/
theorem fgetsSpec_cons_not_newline (n : Nat) (acc : List Char) (ch : Char)
    (rest : List Char) (h : ch ≠ '\n') :
    CBuf.fgetsSpec (n+2) acc (ch :: rest) =
      CBuf.fgetsSpec (n+1) (acc ++ [ch]) rest := by
  simp [CBuf.fgetsSpec, h]

/-- Reading a newline appends it and stops. -/
theorem fgetsSpec_cons_newline (n : Nat) (acc rest : List Char) :
    CBuf.fgetsSpec (n+2) acc ('\n' :: rest) = (some (acc ++ ['\n']), rest) := by
  simp [CBuf.fgetsSpec]


/-- One pass of buf_fgets_loop when a byte is still buffered: hand out
content[bufpos], advance the cursor, stop on a newline. -/
theorem buf_fgets_loop_buffered (n : Nat) (acc : List Char) (s : CBuf.BufState)
    (hlt : s.bufpos < s.content.length) :
    CBuf.buf_fgets_loop (n+2) acc s =
      (if s.content[s.bufpos] = '\n'
       then (some (acc ++ [s.content[s.bufpos]]), { s with bufpos := s.bufpos + 1 })
       else CBuf.buf_fgets_loop (n+1) (acc ++ [s.content[s.bufpos]])
              { s with bufpos := s.bufpos + 1 }) := by
  have hne : (s.content.length == s.bufpos) = false := by
    simp [Nat.ne_of_gt hlt]
  have hgetD : s.content.getD s.bufpos 'A' = s.content[s.bufpos] :=
    List.getD_eq_getElem _ _ hlt
  rw [CBuf.buf_fgets_loop, hne]
  simp [hgetD, List.getElem?_eq_getElem, hlt]

/-- One pass of buf_fgets_loop when the buffer is exhausted and the
refill callback reports end of stream. -/
theorem buf_fgets_loop_refill_eof (n : Nat) (acc : List Char)
    (s : CBuf.BufState) (heq : s.content.length = s.bufpos)
    (hq : s.chunks = []) :
    CBuf.buf_fgets_loop (n+2) acc s =
      (if acc.isEmpty then none else some acc, ⟨s.bufsize, [], 0, []⟩) := by
  have hbeq : (s.content.length == s.bufpos) = true := by simp [heq]
  rw [CBuf.buf_fgets_loop, hbeq]
  simp [CBuf.readBuffer, hq]

/-- One pass of buf_fgets_loop when the buffer is exhausted and the
refill callback delivers a non-empty chunk: hand out its first byte. -/
theorem buf_fgets_loop_refill_cons (n : Nat) (acc : List Char)
    (s : CBuf.BufState) (x : Char) (xs : List Char) (rest : List (List Char))
    (heq : s.content.length = s.bufpos) (hq : s.chunks = (x :: xs) :: rest) :
    CBuf.buf_fgets_loop (n+2) acc s =
      (if x = '\n'
       then (some (acc ++ [x]), ⟨s.bufsize, x :: xs, 1, rest⟩)
       else CBuf.buf_fgets_loop (n+1) (acc ++ [x])
              ⟨s.bufsize, x :: xs, 1, rest⟩) := by
  have hbeq : (s.content.length == s.bufpos) = true := by simp [heq]
  rw [CBuf.buf_fgets_loop, hbeq]
  simp [CBuf.readBuffer, hq]

/-- buf_fgets_loop behaves like the reference line-read over the flat
sequence of deliverable bytes: the returned line is the same, the bytes
still deliverable afterwards are the same, and well-formedness of the
buffer state is preserved.  In particular the result does not depend on
how the refill callback chunks the data. -/
theorem buf_fgets_loop_avail (len : Nat) :
    ∀ acc s, CBuf.wf s →
      (CBuf.buf_fgets_loop len acc s).1 =
        (CBuf.fgetsSpec len acc (CBuf.avail s)).1 ∧
      CBuf.avail (CBuf.buf_fgets_loop len acc s).2 =
        (CBuf.fgetsSpec len acc (CBuf.avail s)).2 ∧
      CBuf.wf (CBuf.buf_fgets_loop len acc s).2 := by
  induction len using Nat.strong_induction_on with
  | _ len ih =>
    match len with
    | 0 => exact fun acc s hs => ⟨rfl, rfl, hs⟩
    | 1 => exact fun acc s hs => ⟨rfl, rfl, hs⟩
    | (n+2) =>
      intro acc s hs
      obtain ⟨hpos, hch⟩ := hs
      rcases Nat.lt_or_ge s.bufpos s.content.length with hlt | hge
      · have hdrop := List.drop_eq_getElem_cons hlt
        have hav : CBuf.avail s =
            s.content[s.bufpos] ::
              (s.content.drop (s.bufpos + 1) ++ s.chunks.flatten) := by
          show s.content.drop s.bufpos ++ s.chunks.flatten = _
          rw [hdrop]
          rfl
        have hwf2 : CBuf.wf { s with bufpos := s.bufpos + 1 } :=
          ⟨Nat.succ_le_of_lt hlt, hch⟩
        have hav2 : CBuf.avail { s with bufpos := s.bufpos + 1 } =
            s.content.drop (s.bufpos + 1) ++ s.chunks.flatten := rfl
        rw [buf_fgets_loop_buffered n acc s hlt, hav]
        by_cases hnl : s.content[s.bufpos] = '\n'
        · rw [if_pos hnl, hnl, fgetsSpec_cons_newline]
          exact ⟨rfl, hav2, hwf2⟩
        · rw [if_neg hnl, fgetsSpec_cons_not_newline _ _ _ _ hnl]
          have h3 := ih (n+1) (by omega) (acc ++ [s.content[s.bufpos]])
            { s with bufpos := s.bufpos + 1 } hwf2
          rw [hav2] at h3
          exact h3
      · have heq : s.content.length = s.bufpos := Nat.le_antisymm hge hpos
        have hdrop : s.content.drop s.bufpos = [] :=
          List.drop_eq_nil_of_le (Nat.le_of_eq heq)
        cases hq : s.chunks with
        | nil =>
          have hav : CBuf.avail s = [] := by simp [CBuf.avail, hdrop, hq]
          rw [buf_fgets_loop_refill_eof n acc s heq hq, hav]
          refine ⟨?_, ?_, ?_⟩
          · simp [CBuf.fgetsSpec]
          · simp [CBuf.fgetsSpec, CBuf.avail]
          · exact ⟨Nat.le_refl 0, by simp⟩
        | cons c rest =>
          have hcne : c ≠ [] := hch c (by simp [hq])
          cases c with
          | nil => exact absurd rfl hcne
          | cons x xs =>
            have hav : CBuf.avail s = x :: (xs ++ rest.flatten) := by
              simp [CBuf.avail, hdrop, hq]
            have hrs : ∀ d ∈ rest, d ≠ [] := fun d hd => hch d (by simp [hq, hd])
            have hwf2 : CBuf.wf ⟨s.bufsize, x :: xs, 1, rest⟩ :=
              ⟨Nat.succ_le_succ (Nat.zero_le _), hrs⟩
            have hav2 : CBuf.avail ⟨s.bufsize, x :: xs, 1, rest⟩ =
                xs ++ rest.flatten := rfl
            rw [buf_fgets_loop_refill_cons n acc s x xs rest heq hq, hav]
            by_cases hnl : x = '\n'
            · rw [if_pos hnl, hnl, fgetsSpec_cons_newline]
              exact ⟨rfl, hav2, hwf2⟩
            · rw [if_neg hnl, fgetsSpec_cons_not_newline _ _ _ _ hnl]
              have h3 := ih (n+1) (by omega) (acc ++ [x])
                ⟨s.bufsize, x :: xs, 1, rest⟩ hwf2
              rw [hav2] at h3
              exact h3

/-- Running the reference line-read on "ab\ncd" with any capacity of at
least 4 yields the line "ab\n" and leaves "cd". -/
theorem fgetsSpec_run_abncd (k : Nat) :
    CBuf.fgetsSpec (k+4) [] CBuf.abncd = (some ['a', 'b', '\n'], ['c', 'd']) := by
  show CBuf.fgetsSpec ((k+2)+2) [] ('a' :: ['b', '\n', 'c', 'd']) = _
  rw [fgetsSpec_cons_not_newline _ _ _ _ (by decide)]
  show CBuf.fgetsSpec ((k+1)+2) ['a'] ('b' :: ['\n', 'c', 'd']) = _
  rw [fgetsSpec_cons_not_newline _ _ _ _ (by decide)]
  show CBuf.fgetsSpec (k+2) ['a', 'b'] ('\n' :: ['c', 'd']) = _
  rw [fgetsSpec_cons_newline]
  rfl

/-- Running the reference line-read on the leftover "cd" yields the
partial line "cd" and exhausts the stream. -/
theorem fgetsSpec_run_cd (k : Nat) :
    CBuf.fgetsSpec (k+4) [] ['c', 'd'] = (some ['c', 'd'], []) := by
  show CBuf.fgetsSpec ((k+2)+2) [] ('c' :: ['d']) = _
  rw [fgetsSpec_cons_not_newline _ _ _ _ (by decide)]
  show CBuf.fgetsSpec ((k+1)+2) ['c'] ('d' :: []) = _
  rw [fgetsSpec_cons_not_newline _ _ _ _ (by decide)]
  show CBuf.fgetsSpec (k+2) ['c', 'd'] [] = _
  rw [fgetsSpec_nil _ _ (by decide)]

/-- Running the reference line-read on an exhausted stream yields the
null result. -/
theorem fgetsSpec_run_empty (k : Nat) :
    CBuf.fgetsSpec (k+4) [] [] = (none, []) := by
  show CBuf.fgetsSpec ((k+2)+2) [] [] = _
  simp [CBuf.fgetsSpec]

/-- C8: with a refill callback that delivers exactly the bytes "ab\ncd"
across any number of non-empty refills and then reports end of stream,
and any target capacity of at least 4, three successive buf_fgets calls
return "ab\n", then "cd", then the null result. -/
theorem buf_fgets_three_line_reads (chunks : List (List Char)) (len : Nat)
    (hch : ∀ c ∈ chunks, c ≠ []) (hj : chunks.flatten = CBuf.abncd)
    (hlen : 4 ≤ len) :
    (CBuf.buf_fgets ⟨4096, [], 0, chunks⟩ len).1 = some ['a', 'b', '\n'] ∧
    (CBuf.buf_fgets (CBuf.buf_fgets ⟨4096, [], 0, chunks⟩ len).2 len).1 =
      some ['c', 'd'] ∧
    (CBuf.buf_fgets
        (CBuf.buf_fgets (CBuf.buf_fgets ⟨4096, [], 0, chunks⟩ len).2 len).2
        len).1 = none := by
  obtain ⟨k, rfl⟩ : ∃ k, len = k + 4 := ⟨len - 4, by omega⟩
  have hne : ¬ (k + 4 = 0) := by omega
  have hfg : ∀ s : CBuf.BufState,
      CBuf.buf_fgets s (k+4) = CBuf.buf_fgets_loop (k+4) [] s := by
    intro s; rw [CBuf.buf_fgets, if_neg hne]
  have hwf0 : CBuf.wf ⟨4096, [], 0, chunks⟩ := ⟨Nat.le_refl 0, hch⟩
  have hav0 : CBuf.avail ⟨4096, [], 0, chunks⟩ = CBuf.abncd := by
    simp [CBuf.avail, hj]
  have h1 := buf_fgets_loop_avail (k+4) [] ⟨4096, [], 0, chunks⟩ hwf0
  rw [hav0, fgetsSpec_run_abncd] at h1
  obtain ⟨h1a, h1b, h1c⟩ := h1
  have h2 := buf_fgets_loop_avail (k+4) []
    (CBuf.buf_fgets_loop (k+4) [] ⟨4096, [], 0, chunks⟩).2 h1c
  rw [h1b, fgetsSpec_run_cd] at h2
  obtain ⟨h2a, h2b, h2c⟩ := h2
  have h3 := buf_fgets_loop_avail (k+4) []
    (CBuf.buf_fgets_loop (k+4) []
      (CBuf.buf_fgets_loop (k+4) [] ⟨4096, [], 0, chunks⟩).2).2 h2c
  rw [h2b, fgetsSpec_run_empty] at h3
  simp only [hfg]
  exact ⟨h1a, h2a, h3.1⟩

/-- C8 witness: the single-refill callback delivering "ab\ncd" at once,
with capacity 4. -/
theorem buf_fgets_three_line_reads_witness :
    (CBuf.buf_fgets ⟨4096, [], 0, [CBuf.abncd]⟩ 4).1 = some ['a', 'b', '\n'] ∧
    (CBuf.buf_fgets (CBuf.buf_fgets ⟨4096, [], 0, [CBuf.abncd]⟩ 4).2 4).1 =
      some ['c', 'd'] ∧
    (CBuf.buf_fgets
        (CBuf.buf_fgets (CBuf.buf_fgets ⟨4096, [], 0, [CBuf.abncd]⟩ 4).2 4).2
        4).1 = none :=
  buf_fgets_three_line_reads [CBuf.abncd] 4 (by decide) rfl (by decide)

/-- bz_fgetc when the buffer has been allocated and still holds an unread
byte: hand it out and advance the cursor. -/
theorem mono_bz_fgetc_buffered (s : Mono.BzHandle) (halloc : s.allocated = true)
    (hne : s.content.length ≠ s.bufpos) :
    Mono.bz_fgetc s =
      (some (s.content.getD s.bufpos 'A'), { s with bufpos := s.bufpos + 1 }) := by
  simp [Mono.bz_fgetc, halloc, hne]

/-- bz_fgetc on a freshly opened handle whose whole decoded stream fits
in one BZ2_bzread call: allocate, read everything in, hand out the
first byte. -/
theorem mono_bz_fgetc_first (s : Mono.BzHandle) (halloc : s.allocated = false)
    (hempty : s.content = []) (hpos : s.bufpos = 0) (hs : s.stream ≠ [])
    (hlen : s.stream.length ≤ 1024) :
    Mono.bz_fgetc s = (some (s.stream.getD 0 'A'), ⟨[], true, s.stream, 1⟩) := by
  have ht : s.stream.take 1024 = s.stream := List.take_of_length_le hlen
  have hd : s.stream.drop 1024 = [] := List.drop_eq_nil_of_le hlen
  have hlz : s.stream.length ≠ 0 := by
    simpa using hs
  simp [Mono.bz_fgetc, halloc, hempty, hpos, Mono.bufferSize, ht, hd, hlz]

/-- Running the cfgets loop over a fully buffered run of 'a' characters:
with j+1 capacity left it copies j characters and stops on the
exhausted counter. -/
theorem mono_cfgets_loop_run (m : Nat) :
    ∀ j i acc, i + j ≤ m - 1 →
      Mono.cfgets_loop (j+1) acc
        ⟨[], true, List.replicate (m-1) 'a' ++ ['\n'], i⟩ =
      (some (acc ++ List.replicate j 'a'),
        ⟨[], true, List.replicate (m-1) 'a' ++ ['\n'], i + j⟩) := by
  intro j
  induction j with
  | zero => intro i acc _; simp [Mono.cfgets_loop]
  | succ j ih =>
    intro i acc h
    have h1 : i < (List.replicate (m-1) 'a').length := by simp; omega
    have hget : (List.replicate (m-1) 'a' ++ ['\n']).getD i 'A' = 'a' := by
      rw [List.getD_append _ _ _ _ h1, List.getD_eq_getElem _ _ h1,
        List.getElem_replicate]
    show Mono.cfgets_loop (j+2) acc _ = _
    rw [Mono.cfgets_loop,
      mono_bz_fgetc_buffered _ rfl (by simp; omega)]
    simp only [hget]
    norm_num
    have h2 := ih (i+1) (acc ++ ['a']) (by omega)
    rw [h2, if_neg (by decide)]
    have h3 : i + 1 + j = i + (j+1) := by omega
    rw [h3]
    simp [List.replicate_succ, List.append_assoc]

/-- The first cfgets call on a freshly opened bzip2 handle whose decoded
stream is q+1 'a' characters and a newline: with capacity q+2 it reads
the q+1 'a's (stopping on the exhausted counter, newline unread),
having pulled the whole stream into the fgetc buffer. -/
theorem mono_cfgets_first (q : Nat) (h1024 : q + 2 ≤ 1024) :
    Mono.cfgets ⟨List.replicate (q+1) 'a' ++ ['\n'], false, [], 0⟩ (q+2) =
      (some (List.replicate (q+1) 'a'),
        ⟨[], true, List.replicate (q+1) 'a' ++ ['\n'], q+1⟩) := by
  have hs : (List.replicate (q+1) 'a' ++ ['\n'] : List Char) ≠ [] := by simp
  have hlen : (List.replicate (q+1) 'a' ++ ['\n']).length ≤ 1024 := by
    simp; omega
  have hget : (List.replicate (q+1) 'a' ++ ['\n']).getD 0 'A' = 'a' := by
    have h0 : (0:Nat) < (List.replicate (q+1) 'a').length := by simp
    rw [List.getD_append _ _ _ _ h0, List.getD_eq_getElem _ _ h0,
      List.getElem_replicate]
  rw [Mono.cfgets, if_neg (by omega)]
  show Mono.cfgets_loop (q+2) [] _ = _
  rw [Mono.cfgets_loop, mono_bz_fgetc_first _ rfl rfl rfl hs hlen]
  simp only [hget]
  rw [if_neg (by decide)]
  have h2 := mono_cfgets_loop_run (q+2) q 1 ['a'] (by omega)
  show Mono.cfgets_loop (q+1) ['a']
      ⟨[], true, List.replicate (q+1) 'a' ++ ['\n'], 1⟩ = _
  have hrep : (List.replicate (q+2-1) 'a' : List Char) = List.replicate (q+1) 'a' := rfl
  rw [hrep] at h2
  rw [h2]
  simp [List.replicate_succ]
  omega

/-- A continuation cfgets call sitting just before the newline, with any
capacity of at least 2, reads exactly the newline and stops. -/
theorem mono_cfgets_newline (m e : Nat) (hm : 1 ≤ m) (he : 2 ≤ e) :
    Mono.cfgets ⟨[], true, List.replicate (m-1) 'a' ++ ['\n'], m-1⟩ e =
      (some ['\n'], ⟨[], true, List.replicate (m-1) 'a' ++ ['\n'], m⟩) := by
  obtain ⟨d, rfl⟩ : ∃ d, e = d + 2 := ⟨e - 2, by omega⟩
  have hget : (List.replicate (m-1) 'a' ++ ['\n']).getD (m-1) 'A' = '\n' := by
    rw [List.getD_append_right _ _ _ _ (by simp)]
    simp
  rw [Mono.cfgets, if_neg (by omega)]
  rw [Mono.cfgets_loop, mono_bz_fgetc_buffered _ rfl (by simp)]
  simp only [hget]
  have hp : m - 1 + 1 = m := by omega
  simp [hp]

/-- C6 counterexample: reading a 9-character line with initial capacity
10, the single growth iteration of cfgetline leaves capacity
10 + 9/2 = 14, not the doubled 20 the claim requires (the remaining
room at that iteration is 10 - 9 = 1 < 2). -/
theorem cfgetline_not_doubling :
    Mono.cfgetline ⟨List.replicate 9 'a' ++ ['\n'], false, [], 0⟩ none 10 5 =
      some (some (List.replicate 9 'a' ++ ['\n']), 14,
        ⟨[], true, List.replicate 9 'a' ++ ['\n'], 10⟩) ∧
    (14 : Int) ≠ 2 * 10 := by
  decide

/-- C6 (amended): reading a line of m-1 characters plus a newline with
initial capacity m (5 <= m <= 1024 so that one refill and one growth
iteration suffice), cfgetline grows the buffer once, by half the
current line length: the final capacity is m + (m-1)/2, not 2m.  A
zero initial capacity is replaced by the default 80 once at entry, as
the run on a short line shows. -/
theorem cfgetline_extends_by_half (m : Nat) (h5 : 5 ≤ m) (h1024 : m ≤ 1024)
    (fuel : Nat) (hf : 2 ≤ fuel) :
    Mono.cfgetline ⟨List.replicate (m-1) 'a' ++ ['\n'], false, [], 0⟩ none
        (m : Int) fuel =
      some (some (List.replicate (m-1) 'a' ++ ['\n']),
        (m : Int) + (((m-1)/2 : Nat) : Int),
        ⟨[], true, List.replicate (m-1) 'a' ++ ['\n'], m⟩) ∧
    Mono.cfgetline ⟨['h', 'i', '\n'], false, [], 0⟩ none 0 fuel =
      some (some ['h', 'i', '\n'], 80, ⟨[], true, ['h', 'i', '\n'], 3⟩) := by
  obtain ⟨q, rfl⟩ : ∃ q, m = q + 2 := ⟨m - 2, by omega⟩
  obtain ⟨F, rfl⟩ : ∃ F, fuel = F + 2 := ⟨fuel - 2, by omega⟩
  have hd : q + 2 - 1 = q + 1 := rfl
  have hq3 : 3 ≤ q := by omega
  constructor
  · have hs1 : ¬ ((((q+2 : Nat)) : Int) < 0) := by omega
    have hs2 : ¬ ((((q+2 : Nat)) : Int) = 0) := by omega
    rw [Mono.cfgetline]
    rw [if_neg hs1, if_neg hs2]
    simp only [hd, Int.toNat_natCast]
    rw [mono_cfgets_first q (by omega)]
    simp only [List.length_replicate]
    rw [Mono.cfgetline_loop]
    have hc1 : Mono.cfeof ⟨[], true, List.replicate (q+1) 'a' ++ ['\n'], q+1⟩
        = false := by simp [Mono.cfeof]
    have hc2 : Mono.isafullline (List.replicate (q+1) 'a') (q+1) = false := by
      have hq : q < (List.replicate (q+1) 'a').length := by simp
      simp only [Mono.isafullline, Nat.add_sub_cancel,
        List.getD_eq_getElem _ _ hq, List.getElem_replicate]
      decide
    rw [if_pos (by simp [hc1, hc2])]
    have hnl := mono_cfgets_newline (q+2) ((q+1)/2) (by omega) (by omega)
    rw [hd] at hnl
    have htake : (List.replicate (q+1) 'a').take (q+1)
        = List.replicate (q+1) 'a' := List.take_of_length_le (by simp)
    simp only [hnl, htake]
    rw [Mono.cfgetline_loop]
    have hc3 : Mono.isafullline (List.replicate (q+1) 'a' ++ ['\n']) (q+1+1)
        = true := by
      have hlen : (List.replicate (q+1) 'a').length ≤ q + 1 := by simp
      simp only [Mono.isafullline, Nat.add_sub_cancel,
        List.getD_append_right _ _ _ _ hlen]
      simp
    rw [if_neg (by simp [hc3])]
    simp [hs1]
    exact fun h => absurd h (by omega)
  · have h80 : Mono.cfgets ⟨['h', 'i', '\n'], false, [], 0⟩ 80 =
        (some ['h', 'i', '\n'], ⟨[], true, ['h', 'i', '\n'], 3⟩) := by decide
    rw [Mono.cfgetline]
    norm_num
    rw [show Int.toNat 80 = 80 from rfl]
    simp only [h80]
    rw [Mono.cfgetline_loop]
    rw [if_neg (by decide)]

/-- C6 witness: the growth theorem at capacity 6 (final capacity
6 + 5/2 = 8) and the zero-capacity entry normalisation to 80. -/
theorem cfgetline_extends_by_half_witness :
    Mono.cfgetline ⟨List.replicate (6-1) 'a' ++ ['\n'], false, [], 0⟩ none
        ((6 : Nat) : Int) 2 =
      some (some (List.replicate (6-1) 'a' ++ ['\n']),
        ((6 : Nat) : Int) + (((6-1)/2 : Nat) : Int),
        ⟨[], true, List.replicate (6-1) 'a' ++ ['\n'], 6⟩) ∧
    Mono.cfgetline ⟨['h', 'i', '\n'], false, [], 0⟩ none 0 2 =
      some (some ['h', 'i', '\n'], 80, ⟨[], true, ['h', 'i', '\n'], 3⟩) :=
  cfgetline_extends_by_half 6 (by decide) (by decide) 2 (by decide)

/-- C7: on a file smaller than two stream headers (here the empty file)
xz_size does not return the zero sentinel: having freed its scratch
buffer and closed the file handle without returning, it falls through
into the footer walk, whose first read hits the closed handle
(undefined behaviour in the C source). -/
theorem xz_size_small_file_falls_through :
    Xz.xz_size [] 5 = some Xz.XZOut.ub ∧
    some Xz.XZOut.ub ≠ some (Xz.XZOut.size 0) := by
  decide

/-- Header position of the first stream of a two-stream file. -/
theorem xz_headerPos_zero (s1 s2 : Xz.XZStream) :
    Xz.headerPos [s1, s2] 0 = 0 := rfl

/-- Header position of the second stream of a two-stream file. -/
theorem xz_headerPos_one (s1 s2 : Xz.XZStream) :
    Xz.headerPos [s1, s2] 1 = Xz.streamLen s1 := by
  simp [Xz.headerPos, Xz.fileLen]

/-- Footer position of the first stream of a two-stream file. -/
theorem xz_footerPos_zero (s1 s2 : Xz.XZStream) :
    Xz.footerPos [s1, s2] 0 =
      12 + (s1.blocksSize : Int) + s1.indexSize := by
  simp [Xz.footerPos, Xz.headerPos, Xz.fileLen, List.getD]

/-- Footer position of the second stream of a two-stream file. -/
theorem xz_footerPos_one (s1 s2 : Xz.XZStream) :
    Xz.footerPos [s1, s2] 1 =
      Xz.streamLen s1 + 12 + s2.blocksSize + s2.indexSize := by
  simp [Xz.footerPos, Xz.headerPos, Xz.fileLen, List.getD]

/-- Length of a two-stream file. -/
theorem xz_fileLen_pair (s1 s2 : Xz.XZStream) :
    Xz.fileLen [s1, s2] = Xz.streamLen s1 + Xz.streamLen s2 := by
  simp [Xz.fileLen]

/-- The padding test on a two-stream file, spelt out per stream. -/
theorem xz_pad_eval (s1 s2 : Xz.XZStream) (pos : Int) :
    Xz.isPaddingWordAt [s1, s2] pos =
      (decide (Xz.footerPos [s1, s2] 0 + 12 ≤ pos ∧
               pos + 4 ≤ Xz.footerPos [s1, s2] 0 + 12 + 4 * s1.padWords) ||
       decide (Xz.footerPos [s1, s2] 1 + 12 ≤ pos ∧
               pos + 4 ≤ Xz.footerPos [s1, s2] 1 + 12 + 4 * s2.padWords)) := by
  simp [Xz.isPaddingWordAt, show List.range 2 = [0, 1] from rfl, List.getD]

/-- The footer-search loop started j padding words above the second
stream's footer steps down word by word and stops exactly at the
footer. -/
theorem xz_skip_to_footer_one (s1 s2 : Xz.XZStream) :
    ∀ j fuel, j ≤ s2.padWords → j + 1 ≤ fuel →
      Xz.skipPadding [s1, s2] false fuel (Xz.footerPos [s1, s2] 1 + 4 * j) =
        some (Xz.SkipRes.found (Xz.footerPos [s1, s2] 1)) := by
  have hF0 := xz_footerPos_zero s1 s2
  have hF1 := xz_footerPos_one s1 s2
  have hSL : Xz.streamLen s1 =
      12 + (s1.blocksSize : Int) + s1.indexSize + 12 + 4 * s1.padWords := rfl
  intro j
  induction j with
  | zero =>
    intro fuel _ hf
    obtain ⟨t, rfl⟩ : ∃ t, fuel = t + 1 := ⟨fuel - 1, by omega⟩
    rw [Xz.skipPadding, if_neg (by simp), xz_pad_eval]
    rw [decide_eq_false (by omega), decide_eq_false (by omega)]
    norm_num
  | succ j ih =>
    intro fuel hj hf
    obtain ⟨t, rfl⟩ : ∃ t, fuel = t + 1 := ⟨fuel - 1, by omega⟩
    rw [Xz.skipPadding, if_neg (by simp), xz_pad_eval]
    rw [decide_eq_true (show Xz.footerPos [s1, s2] 1 + 12 ≤
        Xz.footerPos [s1, s2] 1 + 4 * (j+1 : Nat) + 8 ∧
        Xz.footerPos [s1, s2] 1 + 4 * (j+1 : Nat) + 8 + 4 ≤
        Xz.footerPos [s1, s2] 1 + 12 + 4 * s2.padWords by
      constructor <;> [omega; (push_cast; omega)])]
    rw [if_pos (by norm_num)]
    have harg : Xz.footerPos [s1, s2] 1 + 4 * ((j+1 : Nat) : Int) - 4 =
        Xz.footerPos [s1, s2] 1 + 4 * (j : Int) := by push_cast; ring
    rw [harg]
    exact ih t (by omega) (by omega)

/-- The footer-search loop started j padding words above the first
stream's footer steps down word by word and stops exactly at the
footer. -/
theorem xz_skip_to_footer_zero (s1 s2 : Xz.XZStream) :
    ∀ j fuel, j ≤ s1.padWords → j + 1 ≤ fuel →
      Xz.skipPadding [s1, s2] false fuel (Xz.footerPos [s1, s2] 0 + 4 * j) =
        some (Xz.SkipRes.found (Xz.footerPos [s1, s2] 0)) := by
  have hF0 := xz_footerPos_zero s1 s2
  have hF1 := xz_footerPos_one s1 s2
  have hSL : Xz.streamLen s1 =
      12 + (s1.blocksSize : Int) + s1.indexSize + 12 + 4 * s1.padWords := rfl
  intro j
  induction j with
  | zero =>
    intro fuel _ hf
    obtain ⟨t, rfl⟩ : ∃ t, fuel = t + 1 := ⟨fuel - 1, by omega⟩
    rw [Xz.skipPadding, if_neg (by simp), xz_pad_eval]
    rw [decide_eq_false (by omega), decide_eq_false (by omega)]
    norm_num
  | succ j ih =>
    intro fuel hj hf
    obtain ⟨t, rfl⟩ : ∃ t, fuel = t + 1 := ⟨fuel - 1, by omega⟩
    rw [Xz.skipPadding, if_neg (by simp), xz_pad_eval]
    rw [decide_eq_true (show Xz.footerPos [s1, s2] 0 + 12 ≤
        Xz.footerPos [s1, s2] 0 + 4 * (j+1 : Nat) + 8 ∧
        Xz.footerPos [s1, s2] 0 + 4 * (j+1 : Nat) + 8 + 4 ≤
        Xz.footerPos [s1, s2] 0 + 12 + 4 * s1.padWords by
      constructor <;> [omega; (push_cast; omega)])]
    rw [if_pos (by norm_num)]
    have harg : Xz.footerPos [s1, s2] 0 + 4 * ((j+1 : Nat) : Int) - 4 =
        Xz.footerPos [s1, s2] 0 + 4 * (j : Int) := by push_cast; ring
    rw [harg]
    exact ih t (by omega) (by omega)

/-- The index-decode loop consumes its rem index bytes in chunks of at
most 32 and reports stream-end at the position just past the index,
provided the index lies inside the file and the fuel covers the chunk
count. -/
theorem xz_indexLoop_done (f : List Xz.XZStream) :
    ∀ (fuel rem : Nat) (pos : Int), rem < 32 * fuel → 0 ≤ pos →
      pos + rem ≤ Xz.fileLen f →
      Xz.indexLoop f false fuel rem pos = some (Xz.IdxRes.done (pos + rem)) := by
  intro fuel
  induction fuel with
  | zero => intro rem pos h _ _; exact absurd h (by omega)
  | succ fuel ih =>
    intro rem pos hrem hpos hle
    rw [Xz.indexLoop, if_neg (by simp)]
    by_cases h32 : rem ≤ 32
    · rw [Nat.min_eq_right h32]
      rw [if_neg (by omega), if_pos (by omega)]
    · rw [Nat.min_eq_left (by omega)]
      rw [if_neg (by push_cast; omega), if_neg (by omega)]
      have h2 := ih (rem - 32) (pos + 32) (by omega) (by omega) (by omega)
      rw [show ((32 : Nat) : Int) = 32 from rfl, h2]
      congr 2
      omega

/-- Footer decoding at the second stream's footer position identifies
stream 1 (footer positions of the two streams differ). -/
theorem xz_footerDecode_one (s1 s2 : Xz.XZStream) :
    Xz.footerDecodeAt [s1, s2] (Xz.footerPos [s1, s2] 1) = some 1 := by
  have hSL : Xz.streamLen s1 =
      12 + (s1.blocksSize : Int) + s1.indexSize + 12 + 4 * s1.padWords := rfl
  have hne : ¬ (Xz.footerPos [s1, s2] 0 = Xz.footerPos [s1, s2] 1) := by
    rw [xz_footerPos_zero, xz_footerPos_one]
    omega
  rw [Xz.footerDecodeAt, show List.range (List.length [s1, s2]) = [0, 1] from rfl]
  rw [List.find?_cons_of_neg _ (by simpa using hne)]
  rw [List.find?_cons_of_pos _ (by simp)]

/-- Footer decoding at the first stream's footer position identifies
stream 0. -/
theorem xz_footerDecode_zero (s1 s2 : Xz.XZStream) :
    Xz.footerDecodeAt [s1, s2] (Xz.footerPos [s1, s2] 0) = some 0 := by
  rw [Xz.footerDecodeAt, show List.range (List.length [s1, s2]) = [0, 1] from rfl]
  rw [List.find?_cons_of_pos _ (by simp)]

/-- Header decoding succeeds at the second stream's header position. -/
theorem xz_headerDecode_one (s1 s2 : Xz.XZStream) :
    Xz.headerDecodeAt [s1, s2] (Xz.headerPos [s1, s2] 1) = true := by
  rw [Xz.headerDecodeAt, show List.range (List.length [s1, s2]) = [0, 1] from rfl]
  simp

/-- Header decoding succeeds at the front of the file. -/
theorem xz_headerDecode_zero (s1 s2 : Xz.XZStream) :
    Xz.headerDecodeAt [s1, s2] 0 = true := by
  rw [Xz.headerDecodeAt, show List.range (List.length [s1, s2]) = [0, 1] from rfl]
  have h0 : Xz.headerPos [s1, s2] 0 = 0 := rfl
  simp [h0]

/-- C2: on a file made of two concatenated streams — any block, index
and uncompressed sizes, any amount of inter-stream and trailing
padding — the backward footer/index walk of xz_size returns the sum of
the two streams' uncompressed sizes.  The walk touches only header,
footer, index and padding positions; the blocks' payload enters the
computation through its length alone. -/
theorem xz_size_concatenated_streams (s1 s2 : Xz.XZStream) (fuel : Nat)
    (hfuel : Xz.fileLen [s1, s2] + 4 ≤ (fuel : Int)) :
    Xz.xz_size [s1, s2] fuel =
      some (Xz.XZOut.size (s1.uncompressed + s2.uncompressed)) := by
  have hSL1 : Xz.streamLen s1 =
      12 + (s1.blocksSize : Int) + s1.indexSize + 12 + 4 * s1.padWords := rfl
  have hSL2 : Xz.streamLen s2 =
      12 + (s2.blocksSize : Int) + s2.indexSize + 12 + 4 * s2.padWords := rfl
  have hFL := xz_fileLen_pair s1 s2
  have hF0 := xz_footerPos_zero s1 s2
  have hF1 := xz_footerPos_one s1 s2
  have hH1 := xz_headerPos_one s1 s2
  obtain ⟨F, rfl⟩ : ∃ F, fuel = F + 1 := ⟨fuel - 1, by omega⟩
  simp only [Xz.xz_size]
  rw [if_neg (by omega)]
  rw [Xz.xzWalk]
  have harg1 : Xz.fileLen [s1, s2] - 12 =
      Xz.footerPos [s1, s2] 1 + 4 * (s2.padWords : Int) := by omega
  rw [harg1,
    xz_skip_to_footer_one s1 s2 s2.padWords F (Nat.le_refl _) (by omega)]
  simp only [xz_footerDecode_one, List.getD_cons_succ, List.getD_cons_zero]
  rw [if_neg (by omega)]
  rw [xz_indexLoop_done [s1, s2] F s2.indexSize
    (Xz.footerPos [s1, s2] 1 - (s2.indexSize : Int)) (by omega) (by omega)
    (by omega)]
  simp only []
  rw [if_neg (by omega)]
  have harg2 : Xz.footerPos [s1, s2] 1 - (s2.indexSize : Int) + s2.indexSize -
      ((s2.indexSize : Int) + 12) - (s2.blocksSize : Int) =
      Xz.headerPos [s1, s2] 1 := by omega
  rw [harg2]
  rw [if_neg (by omega)]
  rw [xz_headerDecode_one]
  rw [if_pos rfl]
  rw [if_pos (by omega)]
  obtain ⟨G, rfl⟩ : ∃ G, F = G + 1 := ⟨F - 1, by omega⟩
  rw [Xz.xzWalk]
  have harg3 : Xz.headerPos [s1, s2] 1 - 12 =
      Xz.footerPos [s1, s2] 0 + 4 * (s1.padWords : Int) := by omega
  rw [harg3,
    xz_skip_to_footer_zero s1 s2 s1.padWords G (Nat.le_refl _) (by omega)]
  simp only [xz_footerDecode_zero, List.getD_cons_zero]
  rw [if_neg (by omega)]
  rw [xz_indexLoop_done [s1, s2] G s1.indexSize
    (Xz.footerPos [s1, s2] 0 - (s1.indexSize : Int)) (by omega) (by omega)
    (by omega)]
  simp only []
  rw [if_neg (by omega)]
  have harg4 : Xz.footerPos [s1, s2] 0 - (s1.indexSize : Int) + s1.indexSize -
      ((s1.indexSize : Int) + 12) - (s1.blocksSize : Int) = 0 := by omega
  rw [harg4]
  rw [if_neg (by omega)]
  rw [xz_headerDecode_zero]
  rw [if_pos rfl]
  rw [if_neg (by omega)]
  rfl

/-- C2 witness: a 40-byte stream (4 payload bytes, 8 index bytes, one
padding word, 100 uncompressed bytes) followed by a 32-byte stream
(empty payload, 23 uncompressed bytes), walked with fuel 76. -/
theorem xz_size_concatenated_streams_witness :
    Xz.fileLen [⟨4, 8, 100, 1⟩, ⟨0, 8, 23, 0⟩] + 4 ≤ ((76 : Nat) : Int) ∧
    Xz.xz_size [⟨4, 8, 100, 1⟩, ⟨0, 8, 23, 0⟩] 76 =
      some (Xz.XZOut.size (100 + 23)) :=
  ⟨by decide, xz_size_concatenated_streams ⟨4, 8, 100, 1⟩ ⟨0, 8, 23, 0⟩ 76
    (by decide)⟩
